import Mathlib

/-!
Shallow embedding of `src/services/updateService.ts` (OrionTV update service)
and proofs of the specification claims about it.

JavaScript numbers are modelled as `Option ℤ` (`none` = NaN, `some n` = the
number `n`); byte counts and timestamps are modelled exactly (no float
rounding).  Strings are Lean `String`s, manipulated through their character
lists.  Asynchronous effectful operations (`checkVersion`, `downloadApk`,
`cleanOldApkFiles`, `installApk`) are embedded as pure functions from an
explicit environment describing the behaviour of the external collaborators
(network fetcher, file store, installer launcher) to a record of the run's
observable outcome (result, backoff waits, toasts shown, attempts made).
-/

namespace UpdateService

/-! ### JavaScript string-to-number coercion (fragment)

`compareVersions` calls `v.split('.').map(Number)`.  `Number(s)` is modelled
here on the fragment actually reachable from dot-free components: optional
surrounding ASCII whitespace, an optional sign, and decimal digits; the empty
(or all-whitespace) string coerces to `0`; everything else (including the
exponent / hex / `Infinity` numeral forms, which are outside the modelled
fragment) is NaN (`none`). -/

def natOfDigits (l : List Char) : ℕ :=
  l.foldl (fun n c => 10 * n + (c.toNat - 48)) 0

def isSpaceChar (c : Char) : Bool :=
  c = ' ' || c = '\t' || c = '\n' || c = '\r'

def trimChars (l : List Char) : List Char :=
  ((l.dropWhile isSpaceChar).reverse.dropWhile isSpaceChar).reverse

def decDigits? (l : List Char) : Option ℕ :=
  if l ≠ [] ∧ l.all Char.isDigit = true then some (natOfDigits l) else none

def jsNumOfTrimmed : List Char → Option ℤ
  | [] => some 0
  | c :: rest =>
      if c = '-' then (decDigits? rest).map (fun n => -(n : ℤ))
      else if c = '+' then (decDigits? rest).map (fun n => (n : ℤ))
      else (decDigits? (c :: rest)).map (fun n => (n : ℤ))

def jsNumber (l : List Char) : Option ℤ :=
  jsNumOfTrimmed (trimChars l)

/-- Model of JavaScript `String.prototype.split('.')` on the character list:
`""` splits to `[""]`, separators at the ends or adjacent separators produce
empty components. -/
def splitDot : List Char → List (List Char)
  | [] => [[]]
  | c :: t =>
      match splitDot t with
      | [] => [[]]
      | g :: gs => if c = '.' then [] :: g :: gs else (c :: g) :: gs

/-- One step of the comparison loop body: `if (n1 > n2) return 1; if (n1 < n2)
return -1;` under JS semantics, where a NaN operand makes both comparisons
false (hence `0`, i.e. the loop continues). -/
def jcmp (a b : Option ℤ) : Int :=
  match a, b with
  | some x, some y => if x > y then 1 else if x < y then -1 else 0
  | _, _ => 0

/-- Tail of the comparison loop once the left list is exhausted: each missing
left component reads as `p1[i] ?? 0 = 0`. -/
def cmpZeroRight : List (Option ℤ) → Int
  | [] => 0
  | b :: bs =>
      let c := jcmp (some 0) b
      if c = 0 then cmpZeroRight bs else c

/-- Tail of the comparison loop once the right list is exhausted: each missing
right component reads as `p2[i] ?? 0 = 0`. -/
def cmpZeroLeft : List (Option ℤ) → Int
  | [] => 0
  | a :: as =>
      let c := jcmp a (some 0)
      if c = 0 then cmpZeroLeft as else c

/-- The indexed loop of `compareVersions`, `for (i = 0; i < max(len1, len2); i++)`
with `p[i] ?? 0` padding on the exhausted side, as structural recursion on the
two component lists: return the first nonzero `jcmp`, else `0`. -/
def cmpNums : List (Option ℤ) → List (Option ℤ) → Int
  | [], l2 => cmpZeroRight l2
  | a :: as, [] => cmpZeroLeft (a :: as)
  | a :: as, b :: bs =>
      let c := jcmp a b
      if c = 0 then cmpNums as bs else c

/-- `compareVersions(v1, v2)` from `updateService.ts` lines 228–238. -/
def compareVersions (v1 v2 : String) : Int :=
  cmpNums ((splitDot v1.data).map jsNumber) ((splitDot v2.data).map jsNumber)

/-- `isUpdateAvailable(remoteVersion)` (lines 242–244).  `currentVersion` is
read from `package.json` at load time (outside `src/`), so it is passed as an
explicit parameter here. -/
def isUpdateAvailable (currentVersion remoteVersion : String) : Bool :=
  compareVersions remoteVersion currentVersion > 0

/-! ### Lemmas about `jcmp` and `cmpNums` -/

theorem jcmp_cases (a b : Option ℤ) : jcmp a b = -1 ∨ jcmp a b = 0 ∨ jcmp a b = 1 := by
  rcases a with _ | x <;> rcases b with _ | y
  · simp [jcmp]
  · simp [jcmp]
  · simp [jcmp]
  · simp only [jcmp]
    split_ifs <;> simp

theorem jcmp_neg (a b : Option ℤ) : jcmp a b = - jcmp b a := by
  rcases a with _ | x <;> rcases b with _ | y
  · simp [jcmp]
  · simp [jcmp]
  · simp [jcmp]
  · simp only [jcmp]
    split_ifs <;> omega

theorem jcmp_self (a : Option ℤ) : jcmp a a = 0 := by
  rcases a with _ | x <;> simp [jcmp]

theorem cmpZeroRight_cases (l : List (Option ℤ)) :
    cmpZeroRight l = -1 ∨ cmpZeroRight l = 0 ∨ cmpZeroRight l = 1 := by
  induction l with
  | nil => simp [cmpZeroRight]
  | cons b bs ih =>
      simp only [cmpZeroRight]
      split
      · exact ih
      · exact jcmp_cases _ _

theorem cmpZeroLeft_cases (l : List (Option ℤ)) :
    cmpZeroLeft l = -1 ∨ cmpZeroLeft l = 0 ∨ cmpZeroLeft l = 1 := by
  induction l with
  | nil => simp [cmpZeroLeft]
  | cons a as ih =>
      simp only [cmpZeroLeft]
      split
      · exact ih
      · exact jcmp_cases _ _

theorem cmpZeroLeft_eq_neg (l : List (Option ℤ)) :
    cmpZeroLeft l = - cmpZeroRight l := by
  induction l with
  | nil => simp [cmpZeroLeft, cmpZeroRight]
  | cons a as ih =>
      simp only [cmpZeroLeft, cmpZeroRight]
      rw [jcmp_neg a (some 0)]
      by_cases h : jcmp (some 0) a = 0
      · rw [h]
        simpa using ih
      · rw [if_neg (by simpa using h), if_neg h]

theorem cmpNums_nil_right (l : List (Option ℤ)) : cmpNums l [] = cmpZeroLeft l := by
  cases l with
  | nil => simp [cmpNums, cmpZeroLeft, cmpZeroRight]
  | cons a as => rfl

theorem cmpNums_cases (l1 l2 : List (Option ℤ)) :
    cmpNums l1 l2 = -1 ∨ cmpNums l1 l2 = 0 ∨ cmpNums l1 l2 = 1 := by
  induction l1 generalizing l2 with
  | nil => exact cmpZeroRight_cases l2
  | cons a as ih =>
      cases l2 with
      | nil => exact cmpZeroLeft_cases (a :: as)
      | cons b bs =>
          simp only [cmpNums]
          split
          · exact ih bs
          · exact jcmp_cases _ _

theorem cmpNums_neg (l1 l2 : List (Option ℤ)) :
    cmpNums l1 l2 = - cmpNums l2 l1 := by
  induction l1 generalizing l2 with
  | nil =>
      rw [cmpNums_nil_right, cmpZeroLeft_eq_neg, neg_neg]
      rfl
  | cons a as ih =>
      cases l2 with
      | nil =>
          rw [cmpNums_nil_right]
          show cmpZeroLeft (a :: as) = - cmpZeroRight (a :: as)
          exact cmpZeroLeft_eq_neg _
      | cons b bs =>
          simp only [cmpNums]
          rw [jcmp_neg b a]
          by_cases h : jcmp a b = 0
          · rw [h]
            simpa using ih bs
          · rw [if_neg h, if_neg (by simpa using h)]
            ring

theorem cmpNums_self (l : List (Option ℤ)) : cmpNums l l = 0 := by
  induction l with
  | nil => simp [cmpNums, cmpZeroRight]
  | cons a as ih => simp [cmpNums, jcmp_self, ih]

/-! ### Specification-side version comparison

These definitions follow the words of the spec ("splits both inputs on '.',
parses components as integers, treats a missing component on the shorter side
as 0, and returns 1 at the first index where a's component exceeds b's, -1 at
the first index where it is less, and 0 when all compared components are
equal"), to be compared with the implementation `compareVersions`. -/

/-- A dot-separated component that is a nonempty string of decimal digits. -/
def validComponent (c : List Char) : Bool :=
  !c.isEmpty && c.all Char.isDigit

/-- A "dot-separated non-negative-integer version string". -/
def isVersionString (s : String) : Bool :=
  (splitDot s.data).all validComponent

/-- Integer values of the dot-separated components of a version string. -/
def componentVals (s : String) : List ℕ :=
  (splitDot s.data).map natOfDigits

/-- Zero-padding of a component list to length `n`: a missing component on the
shorter side is treated as 0. -/
def padTo (n : ℕ) (l : List ℕ) : List ℕ :=
  l ++ List.replicate (n - l.length) 0

/-- First-difference comparison of two (equal-length) component lists. -/
def firstDiff : List ℕ → List ℕ → Int
  | a :: as, b :: bs =>
      if b < a then 1 else if a < b then -1 else firstDiff as bs
  | _, _ => 0

/-- Specification-side comparison of two component lists. -/
def specCompare (xs ys : List ℕ) : Int :=
  firstDiff (padTo (max xs.length ys.length) xs) (padTo (max xs.length ys.length) ys)

theorem padTo_cons (n : ℕ) (x : ℕ) (l : List ℕ) :
    padTo (n + 1) (x :: l) = x :: padTo n l := by
  simp [padTo, Nat.succ_sub_succ]

theorem padTo_eq_self {n : ℕ} {l : List ℕ} (h : n ≤ l.length) : padTo n l = l := by
  simp [padTo, Nat.sub_eq_zero_of_le h]

theorem padTo_nil (n : ℕ) : padTo n [] = List.replicate n 0 := by
  simp [padTo]

/-- The value `Number(c)` takes on a valid component, as an `Option ℤ`. -/
def someInt (n : ℕ) : Option ℤ :=
  some (n : ℤ)

theorem jcmp_someInt (x y : ℕ) :
    jcmp (someInt x) (someInt y) = if y < x then 1 else if x < y then -1 else 0 := by
  simp only [someInt, jcmp, gt_iff_lt, Nat.cast_lt]

theorem jcmp_zero_someInt (y : ℕ) :
    jcmp (some 0) (someInt y) = if 0 < y then -1 else 0 := by
  simp only [someInt, jcmp]
  rw [if_neg (by omega)]
  by_cases h : 0 < y
  · rw [if_pos (by exact_mod_cast h), if_pos h]
  · rw [if_neg (by omega), if_neg h]

theorem jcmp_someInt_zero (x : ℕ) :
    jcmp (someInt x) (some 0) = if 0 < x then 1 else 0 := by
  simp only [someInt, jcmp]
  by_cases h : 0 < x
  · rw [if_pos (by exact_mod_cast h), if_pos h]
  · rw [if_neg (by omega), if_neg (by omega), if_neg h]

theorem cmpZeroRight_map_someInt (ys : List ℕ) :
    cmpZeroRight (ys.map someInt) =
      firstDiff (List.replicate ys.length 0) ys := by
  induction ys with
  | nil => rfl
  | cons y ys ih =>
      simp only [List.map_cons, cmpZeroRight, List.length_cons, List.replicate_succ,
        firstDiff, jcmp_zero_someInt]
      rcases Nat.eq_zero_or_pos y with hy | hy
      · subst hy
        simpa using ih
      · simp [hy, Nat.not_lt_zero]

theorem cmpZeroLeft_map_someInt (xs : List ℕ) :
    cmpZeroLeft (xs.map someInt) =
      firstDiff xs (List.replicate xs.length 0) := by
  induction xs with
  | nil => rfl
  | cons x xs ih =>
      simp only [List.map_cons, cmpZeroLeft, List.length_cons, List.replicate_succ,
        firstDiff, jcmp_someInt_zero]
      rcases Nat.eq_zero_or_pos x with hx | hx
      · subst hx
        simpa using ih
      · simp [hx, Nat.not_lt_zero]

theorem cmpNums_map_someInt (xs ys : List ℕ) :
    cmpNums (xs.map someInt) (ys.map someInt) = specCompare xs ys := by
  induction xs generalizing ys with
  | nil =>
      rw [List.map_nil]
      show cmpZeroRight (ys.map someInt) = _
      rw [cmpZeroRight_map_someInt]
      simp [specCompare, padTo_nil, padTo_eq_self]
  | cons x xs ih =>
      cases ys with
      | nil =>
          rw [List.map_nil, cmpNums_nil_right, cmpZeroLeft_map_someInt]
          simp [specCompare, padTo_nil, padTo_eq_self]
      | cons y ys =>
          simp only [List.map_cons, cmpNums, jcmp_someInt]
          have hmax : max (x :: xs).length (y :: ys).length =
              max xs.length ys.length + 1 := by
            simp [Nat.succ_max_succ]
          rw [specCompare, hmax, padTo_cons, padTo_cons, firstDiff]
          rcases Nat.lt_trichotomy x y with h | h | h
          · rw [if_neg (show ¬ y < x by omega), if_pos h,
              if_neg (show ¬ ((-1 : Int) = 0) by decide),
              if_neg (show ¬ y < x by omega), if_pos h]
          · subst h
            rw [if_neg (lt_irrefl x), if_neg (lt_irrefl x), if_neg (lt_irrefl x),
              if_neg (lt_irrefl x), if_pos rfl]
            exact ih ys
          · rw [if_pos h, if_pos h]
            norm_num

theorem isSpaceChar_eq_false_of_isDigit {c : Char} (h : c.isDigit = true) :
    isSpaceChar c = false := by
  by_contra hc
  have hsp : isSpaceChar c = true := by
    revert hc
    cases isSpaceChar c <;> simp
  have : ((c = ' ' ∨ c = '\t') ∨ c = '\n') ∨ c = '\r' := by
    simpa [isSpaceChar] using hsp
  rcases this with ((rfl | rfl) | rfl) | rfl <;> exact absurd h (by decide)

theorem dropWhile_isSpaceChar_of_all_digits {l : List Char}
    (h : l.all Char.isDigit = true) : l.dropWhile isSpaceChar = l := by
  cases l with
  | nil => rfl
  | cons c t =>
      simp only [List.all_cons, Bool.and_eq_true] at h
      rw [List.dropWhile_cons, isSpaceChar_eq_false_of_isDigit h.1]
      simp

theorem trimChars_of_all_digits {l : List Char} (h : l.all Char.isDigit = true) :
    trimChars l = l := by
  unfold trimChars
  rw [dropWhile_isSpaceChar_of_all_digits h,
    dropWhile_isSpaceChar_of_all_digits (by simpa using h), List.reverse_reverse]

theorem jsNumber_of_valid {c : List Char} (h : validComponent c = true) :
    jsNumber c = someInt (natOfDigits c) := by
  obtain ⟨hne, hdig⟩ : (¬ c.isEmpty = true) ∧ c.all Char.isDigit = true := by
    simpa [validComponent, Bool.and_eq_true] using h
  cases c with
  | nil => simp at hne
  | cons c0 t =>
      obtain ⟨hc0, ht⟩ : c0.isDigit = true ∧ t.all Char.isDigit = true := by
        simpa using hdig
      rw [jsNumber, trimChars_of_all_digits hdig]
      show jsNumOfTrimmed (c0 :: t) = _
      rw [jsNumOfTrimmed]
      rw [if_neg (show ¬ c0 = '-' by rintro rfl; exact absurd hc0 (by decide)),
        if_neg (show ¬ c0 = '+' by rintro rfl; exact absurd hc0 (by decide))]
      rw [decDigits?, if_pos ⟨List.cons_ne_nil c0 t, hdig⟩]
      rfl

/-! ### Cleanup of stale APK files (`cleanOldApkFiles`, lines 75–105)

The file-store collaborators (`FileSystem.documentDirectory`,
`readDirectoryAsync`, `deleteAsync`) are modelled by an explicit environment
`CleanEnv`; `Except.error` stands for a rejected promise. -/

/-- Artifact name filter from line 82:
`name.startsWith('OrionTV_v') && name.endsWith('.apk')`. -/
def isApkName (name : String) : Bool :=
  List.isPrefixOf "OrionTV_v".data name.data &&
    List.isSuffixOf ".apk".data name.data

/-- `parseInt(name.replace(/[^0-9]/g, ''), 10)` from lines 87–88: strip every
non-digit character, then parse; an empty remainder parses to NaN (`none`).
The numeric value is modelled exactly (no float precision loss). -/
def extractNum (name : String) : Option ℕ :=
  let d := name.data.filter Char.isDigit
  if d.isEmpty then none else some (natOfDigits d)

/-- The sort comparator from lines 86–90, `(a, b) => numB - numA`
(descending numeric order): `apkLe a b` says `a` may be placed before `b`
(comparator result `≤ 0`).  Per the ECMAScript SortCompare rules a NaN
comparator result is treated as `+0`, i.e. either order is allowed. -/
def apkLe (a b : String) : Bool :=
  match extractNum a, extractNum b with
  | some x, some y => y ≤ x
  | _, _ => true

/-- Strict descending numeric order on extracted numbers (`none` = NaN is
never below or above anything). -/
def numLt (a b : Option ℕ) : Bool :=
  match a, b with
  | some x, some y => x < y
  | _, _ => false

/-- Insertion step of the sort model. -/
def insertByNum (a : String) : List String → List String
  | [] => [a]
  | b :: t => if apkLe a b then a :: b :: t else b :: insertByNum a t

/-- Model of `apkFiles.sort((a, b) => numB - numA)` (lines 86–90):
`Array.prototype.sort` is a stable sort consistent with the comparator, and
with pairwise-distinct numbers — the only situation the claims constrain —
every sort consistent with the comparator produces the same list, so an
insertion sort is a faithful model. -/
def sortByNumDesc : List String → List String
  | [] => []
  | a :: t => insertByNum a (sortByNumDesc t)

/-- The deletion plan of `cleanOldApkFiles` for a directory listing
(lines 82–92): filter to artifact names, return early when 2 or fewer,
otherwise sort by descending extracted number and keep the newest two
(`sorted.slice(2)` is deleted). -/
def cleanPlan (listing : List String) : List String :=
  let apkFiles := listing.filter isApkName
  if apkFiles.length ≤ 2 then []
  else (sortByNumDesc apkFiles).drop 2

theorem insertByNum_perm (a : String) (l : List String) :
    (insertByNum a l).Perm (a :: l) := by
  induction l with
  | nil => exact List.Perm.refl _
  | cons b t ih =>
      rw [insertByNum]
      split
      · exact List.Perm.refl _
      · exact (ih.cons b).trans (List.Perm.swap a b t)

theorem sortByNumDesc_perm (l : List String) : (sortByNumDesc l).Perm l := by
  induction l with
  | nil => exact List.Perm.refl _
  | cons a t ih => exact (insertByNum_perm a (sortByNumDesc t)).trans (ih.cons a)

theorem apkLe_total (a b : String) : apkLe a b = true ∨ apkLe b a = true := by
  unfold apkLe
  rcases extractNum a with _ | x <;> rcases extractNum b with _ | y <;> simp
  omega

theorem apkLe_trans_mid {a b c : String} (hb : (extractNum b).isSome = true)
    (hab : apkLe a b = true) (hbc : apkLe b c = true) : apkLe a c = true := by
  unfold apkLe at hab hbc ⊢
  rcases hkb : extractNum b with _ | kb
  · rw [hkb] at hb
    simp at hb
  · rw [hkb] at hab hbc
    rcases hka : extractNum a with _ | ka
    · simp
    · rw [hka] at hab
      rcases hkc : extractNum c with _ | kc
      · simp
      · rw [hkc] at hbc
        simp only [decide_eq_true_eq] at hab hbc ⊢
        omega

theorem pairwise_insertByNum {a : String} {l : List String}
    (hl : l.Pairwise (fun x y => apkLe x y = true))
    (hkeys : ∀ x ∈ l, (extractNum x).isSome = true) :
    (insertByNum a l).Pairwise (fun x y => apkLe x y = true) := by
  induction l with
  | nil => simp [insertByNum]
  | cons b t ih =>
      rw [insertByNum]
      rcases List.pairwise_cons.mp hl with ⟨hb, ht⟩
      split
      · refine List.pairwise_cons.mpr ⟨?_, hl⟩
        intro x hx
        rcases List.mem_cons.mp hx with rfl | hx
        · assumption
        · exact apkLe_trans_mid (hkeys b (List.mem_cons_self b t))
            (by assumption) (hb x hx)
      · refine List.pairwise_cons.mpr ⟨?_, ih ht
          (fun x hx => hkeys x (List.mem_cons_of_mem b hx))⟩
        intro x hx
        have hx' : x = a ∨ x ∈ t :=
          List.mem_cons.mp ((insertByNum_perm a t).mem_iff.mp hx)
        rcases hx' with rfl | hx'
        · rcases apkLe_total x b with h' | h'
          · exact absurd h' (by assumption)
          · exact h'
        · exact hb x hx'

theorem pairwise_sortByNumDesc {l : List String}
    (hkeys : ∀ x ∈ l, (extractNum x).isSome = true) :
    (sortByNumDesc l).Pairwise (fun x y => apkLe x y = true) := by
  induction l with
  | nil => simp [sortByNumDesc]
  | cons a t ih =>
      rw [sortByNumDesc]
      exact pairwise_insertByNum
        (ih fun x hx => hkeys x (List.mem_cons_of_mem a hx))
        (fun x hx => hkeys x
          (List.mem_cons_of_mem a ((sortByNumDesc_perm t).mem_iff.mp hx)))

theorem numLt_irrefl (a : Option ℕ) : numLt a a = false := by
  rcases a with _ | x <;> simp [numLt]

theorem numLt_asymm {a b : Option ℕ} (h : numLt a b = true) : numLt b a = false := by
  rcases a with _ | x <;> rcases b with _ | y <;> simp [numLt] at h ⊢
  omega

theorem apkLe_some_some {a b : String} {x y : ℕ} (ha : extractNum a = some x)
    (hb : extractNum b = some y) : apkLe a b = decide (y ≤ x) := by
  unfold apkLe
  rw [ha, hb]

/-- On a matching list whose extracted numbers all exist and are pairwise
distinct, an element survives `drop 2` of the descending sort exactly when at
least two elements of the list have a strictly larger extracted number. -/
theorem drop_two_mem_iff {ms : List String} (hlen : 2 < ms.length)
    (hkeys : ∀ x ∈ ms, (extractNum x).isSome = true)
    (hdist : ms.Pairwise fun x y => extractNum x ≠ extractNum y) (m : String) :
    m ∈ (sortByNumDesc ms).drop 2 ↔
      m ∈ ms ∧ 2 ≤ ms.countP fun x => numLt (extractNum m) (extractNum x) := by
  have hperm := sortByNumDesc_perm ms
  have hkeys' : ∀ x ∈ sortByNumDesc ms, (extractNum x).isSome = true :=
    fun x hx => hkeys x (hperm.mem_iff.mp hx)
  have hdist' : (sortByNumDesc ms).Pairwise (fun x y => extractNum x ≠ extractNum y) :=
    (List.Perm.pairwise_iff (fun h => h.symm) hperm).mpr hdist
  have hstrict : (sortByNumDesc ms).Pairwise
      (fun x y => numLt (extractNum y) (extractNum x) = true) := by
    refine ((pairwise_sortByNumDesc hkeys).and hdist').imp_of_mem ?_
    intro x y hx hy hxy
    obtain ⟨kx, hkx⟩ := Option.isSome_iff_exists.mp (hkeys' x hx)
    obtain ⟨ky, hky⟩ := Option.isSome_iff_exists.mp (hkeys' y hy)
    have hle : apkLe x y = true := hxy.1
    have hne : extractNum x ≠ extractNum y := hxy.2
    rw [apkLe_some_some hkx hky, decide_eq_true_eq] at hle
    rw [hkx, hky] at hne
    rw [hky, hkx]
    simp only [numLt, decide_eq_true_eq]
    rcases Nat.lt_or_ge ky kx with h | h
    · exact h
    · exact absurd (le_antisymm hle h) (by simpa using fun e => hne (by rw [e]))
  have hl2 : 2 < (sortByNumDesc ms).length := by
    rw [hperm.length_eq]
    exact hlen
  obtain ⟨k1, t1, h1⟩ : ∃ k1 t1, sortByNumDesc ms = k1 :: t1 := by
    cases h : sortByNumDesc ms with
    | nil => rw [h] at hl2; simp at hl2
    | cons k1 t1 => exact ⟨k1, t1, rfl⟩
  obtain ⟨k2, rest, h2⟩ : ∃ k2 rest, t1 = k2 :: rest := by
    cases h : t1 with
    | nil => rw [h1, h] at hl2; simp at hl2
    | cons k2 rest => exact ⟨k2, rest, rfl⟩
  rw [h2] at h1
  rw [h1] at hstrict
  have hk1 : ∀ x ∈ k2 :: rest, numLt (extractNum x) (extractNum k1) = true :=
    (List.pairwise_cons.mp hstrict).1
  have hk2 : ∀ x ∈ rest, numLt (extractNum x) (extractNum k2) = true :=
    (List.pairwise_cons.mp (List.pairwise_cons.mp hstrict).2).1
  have hdropeq : (sortByNumDesc ms).drop 2 = rest := by
    rw [h1]
    rfl
  rw [hdropeq]
  constructor
  · intro hmrest
    refine ⟨hperm.mem_iff.mp (by
      rw [h1]
      exact List.mem_cons_of_mem _ (List.mem_cons_of_mem _ hmrest)), ?_⟩
    rw [← List.Perm.countP_eq _ hperm, h1, List.countP_cons, List.countP_cons]
    rw [if_pos (hk2 m hmrest), if_pos (hk1 m (List.mem_cons_of_mem _ hmrest))]
    omega
  · rintro ⟨hm, hcnt⟩
    have hm' : m ∈ k1 :: k2 :: rest := by
      rw [← h1]
      exact hperm.mem_iff.mpr hm
    rw [← List.Perm.countP_eq _ hperm, h1, List.countP_cons, List.countP_cons] at hcnt
    rcases List.mem_cons.mp hm' with rfl | hm'
    · exfalso
      have c0 : rest.countP (fun x => numLt (extractNum m) (extractNum x)) = 0 :=
        List.countP_eq_zero.mpr fun x hx => by
          rw [numLt_asymm (hk1 x (List.mem_cons_of_mem _ hx))]
          simp
      rw [c0, if_neg (by rw [numLt_asymm (hk1 k2 (List.mem_cons_self _ _))]; simp),
        if_neg (by rw [numLt_irrefl]; simp)] at hcnt
      omega
    rcases List.mem_cons.mp hm' with rfl | hm''
    · exfalso
      have c0 : rest.countP (fun x => numLt (extractNum m) (extractNum x)) = 0 :=
        List.countP_eq_zero.mpr fun x hx => by
          rw [numLt_asymm (hk2 x hx)]
          simp
      rw [c0, if_neg (by rw [numLt_irrefl]; simp)] at hcnt
      split at hcnt <;> omega
    · exact hm''

/-- The file-store behaviour visible to `cleanOldApkFiles`:
`FileSystem.documentDirectory` (possibly null), the outcome of
`readDirectoryAsync` and the per-path outcome of `deleteAsync`
(`Except.error` = rejected promise). -/
structure CleanEnv where
  documentDirectory : Option String
  listing : Except String (List String)
  deleteResult : String → Except String Unit

def exceptOk {ε α : Type} : Except ε α → Bool
  | .ok _ => true
  | .error _ => false

/-- The deletion loop of lines 93–101: for each stale file, call
`deleteAsync(dirUri + file)` inside its own try/catch, so an individual
failure is logged and the loop continues.  Records each attempted file with
whether its deletion succeeded. -/
def deleteStale (env : CleanEnv) (dirUri : String) : List String → List (String × Bool)
  | [] => []
  | f :: t => (f, exceptOk (env.deleteResult (dirUri ++ f))) :: deleteStale env dirUri t

/-- Body of the outer `try` of `cleanOldApkFiles` (lines 76–101): a null
document directory is thrown, a listing failure propagates, otherwise the
stale files from `cleanPlan` are deleted one by one. -/
def cleanAttempt (env : CleanEnv) : Except String (List (String × Bool)) :=
  match env.documentDirectory with
  | none => Except.error "Document directory is not available"
  | some dirUri =>
      match env.listing with
      | .error e => .error e
      | .ok listing => .ok (deleteStale env dirUri (cleanPlan listing))

/-- `cleanOldApkFiles` (lines 75–105): the outer `catch` (lines 102–104)
swallows any failure of the attempt, logging it and returning normally. -/
def cleanOldApkFiles (env : CleanEnv) : Except String (List (String × Bool)) :=
  match cleanAttempt env with
  | .ok r => .ok r
  | .error _ => .ok []

theorem deleteStale_eq_map (env : CleanEnv) (dirUri : String) (l : List String) :
    deleteStale env dirUri l =
      l.map fun f => (f, exceptOk (env.deleteResult (dirUri ++ f))) := by
  induction l with
  | nil => rfl
  | cons f t ih => simp [deleteStale, ih]

/-- Directory listing used by the concrete witnesses: five valid artifact
names with distinct embedded timestamps and one non-matching entry, in
scrambled order. -/
def witnessListing : List String :=
  ["OrionTV_v300.apk", "notes.txt", "OrionTV_v100.apk", "OrionTV_v500.apk",
    "OrionTV_v200.apk", "OrionTV_v400.apk"]

/-- File-store behaviour used by the C5 witness: the deletion of
`OrionTV_v200.apk` fails, all other deletions succeed. -/
def witnessCleanEnv : CleanEnv where
  documentDirectory := some "file:///data/user/0/app/files/"
  listing := Except.ok witnessListing
  deleteResult := fun p =>
    if p = "file:///data/user/0/app/files/OrionTV_v200.apk" then
      Except.error "delete failed"
    else Except.ok ()

/-! ### Remote version check (`checkVersion`, lines 35–70)

The network fetcher is modelled by a function from the attempt number to the
attempt's `fetch` outcome; `UPDATE_CONFIG.getDownloadUrl` lives in
`constants/UpdateConfig.ts`, outside `src/`, and is passed as an explicit
pure function `urlB`. -/

/-- Value found in the `version` field of the parsed JSON manifest.  The code
reads `remotePackage.version as string` — a compile-time cast with no runtime
check — so the field may be absent (`undef`) or hold a non-string value
(`other`). -/
inductive JsVal where
  | undef
  | str (s : String)
  | other
deriving DecidableEq

/-- Parsed JSON manifest body; only the `version` field is ever read. -/
structure JsonBody where
  version : JsVal
deriving DecidableEq

/-- Network behaviour of one `fetch` attempt: the fetch may reject (network
error or 10s abort), or a response arrives with an `ok` flag, a status code
and a body whose JSON parse may itself fail. -/
inductive FetchOutcome where
  | netFail (e : String)
  | response (ok : Bool) (status : ℕ) (body : Except String JsonBody)

/-- Errors thrown inside `checkVersion`. -/
inductive CheckErr where
  | net (e : String)
  | http (status : ℕ)
  | json (e : String)
  | unexpected
deriving DecidableEq

/-- `VersionInfo` as actually produced at runtime (lines 50–53): the version
field carries whatever the manifest held. -/
structure VersionInfoM where
  version : JsVal
  downloadUrl : String
deriving DecidableEq

/-- One attempt of `checkVersion` (lines 38–53): a rejected fetch throws, a
non-ok status throws `HTTP ${status}` (line 46), a JSON parse failure throws;
otherwise the body's `version` field is taken without validation and the
download URL is built from it. -/
def checkAttempt (o : FetchOutcome) (urlB : JsVal → String) :
    Except CheckErr VersionInfoM :=
  match o with
  | .netFail e => .error (.net e)
  | .response ok status body =>
      if !ok then .error (.http status)
      else
        match body with
        | .error e => .error (.json e)
        | .ok j => .ok ⟨j.version, urlB j.version⟩

/-- Observable outcome of a `checkVersion` run: the returned or thrown value,
the backoff waits performed (in ms, in order), the number of attempts made
and the toast titles shown. -/
structure CheckRun where
  result : Except CheckErr VersionInfoM
  waits : List ℕ
  attemptsMade : ℕ
  toasts : List String

/-- The retry loop of `checkVersion` (lines 36–67): `attempt` is the current
attempt number, `remaining` the number of attempts still allowed
(`maxRetries - attempt + 1`); the fuel-exhausted case is the unreachable
`throw new Error('Unexpected')` of line 69.  On a non-final failure the loop
waits `2000 * attempt` ms (line 65); on the final failure it shows the
"检查更新失败" toast and re-throws (lines 56–62). -/
def checkVersionFrom (env : ℕ → FetchOutcome) (urlB : JsVal → String) :
    ℕ → ℕ → CheckRun
  | _, 0 => ⟨.error .unexpected, [], 0, []⟩
  | attempt, r + 1 =>
      match checkAttempt (env attempt) urlB with
      | .ok v => ⟨.ok v, [], 1, []⟩
      | .error e =>
          if r = 0 then ⟨.error e, [], 1, ["检查更新失败"]⟩
          else
            let rest := checkVersionFrom env urlB (attempt + 1) r
            ⟨rest.result, 2000 * attempt :: rest.waits, rest.attemptsMade + 1,
              rest.toasts⟩

/-- `checkVersion` (lines 35–70): `maxRetries = 3`, attempts numbered from 1. -/
def checkVersion (env : ℕ → FetchOutcome) (urlB : JsVal → String) : CheckRun :=
  checkVersionFrom env urlB 1 3

/-- Network behaviour where every attempt fails, for the C3 witness. -/
def witnessEnvFail : ℕ → FetchOutcome :=
  fun _ => .netFail "timeout"

/-- Network behaviour failing with HTTP 500 on attempt 1 and succeeding from
attempt 2 on, for the C3 witness. -/
def witnessEnvOk2 : ℕ → FetchOutcome :=
  fun n =>
    if n = 1 then .response false 500 (.ok ⟨.str "9.9.9"⟩)
    else .response true 200 (.ok ⟨.str "9.9.9"⟩)

/-- URL builder used by the witnesses (stands for
`UPDATE_CONFIG.getDownloadUrl`). -/
def witnessUrlB : JsVal → String :=
  fun v =>
    match v with
    | .str s => s
    | .undef => "undefined"
    | .other => "object"

/-! ### APK download (`downloadApk`, lines 110–164) -/

/-- Progress handler created in each download attempt (lines 131–138): the
file store invokes it with cumulative `totalBytesWritten` and
`totalBytesExpectedToWrite`; when a caller-supplied `onProgress` exists and
the expected total is truthy (nonzero), `Math.floor((written / expected) * 100)`
is forwarded to it.  Byte counts are JS numbers, modelled as integers with
the division taken exactly over ℚ; the result is the argument passed to
`onProgress` (`none` = not invoked). -/
def progressHandler (hasOnProgress : Bool) (written expected : ℤ) : Option ℤ :=
  if hasOnProgress = true ∧ expected ≠ 0 then
    some ⌊(written : ℚ) / (expected : ℚ) * 100⌋
  else none

/-- Outcome of `downloadResumable.downloadAsync()` in one attempt: the
promise may reject, or fulfil with a result that may or may not carry a
`uri` (the `result && result.uri` check of line 142; a missing result and a
missing `uri` are indistinguishable there). -/
inductive DlAttempt where
  | fail (e : String)
  | done (uri : Option String)

/-- Errors thrown inside `downloadApk`. -/
inductive DlErr where
  | transfer (e : String)
  | noUri
  | unexpected
deriving DecidableEq

/-- Result of one download attempt (lines 141–147): a fulfilled result
without a URI throws `Download failed: No URI available` (line 146), which
the attempt's catch then treats like any other failure. -/
def dlAttemptResult : DlAttempt → Except DlErr String
  | .fail e => .error (.transfer e)
  | .done (some u) => .ok u
  | .done none => .error .noUri

/-- Observable outcome of the retry loop of `downloadApk`. -/
structure DlRun where
  result : Except DlErr String
  waits : List ℕ
  attemptsMade : ℕ
  toasts : List String

/-- The retry loop of `downloadApk` (lines 117–161): up to `maxRetries = 3`
attempts, waits `3000 * attempt` ms between failed attempts (line 159), on
the final failure shows the "下载失败" toast and re-throws (lines 150–156);
the fuel-exhausted case is the unreachable line 163. -/
def downloadApkFrom (env : ℕ → DlAttempt) : ℕ → ℕ → DlRun
  | _, 0 => ⟨.error .unexpected, [], 0, []⟩
  | attempt, r + 1 =>
      match dlAttemptResult (env attempt) with
      | .ok u => ⟨.ok u, [], 1, []⟩
      | .error e =>
          if r = 0 then ⟨.error e, [], 1, ["下载失败"]⟩
          else
            let rest := downloadApkFrom env (attempt + 1) r
            ⟨rest.result, 3000 * attempt :: rest.waits, rest.attemptsMade + 1,
              rest.toasts⟩

/-- `downloadApk` (lines 110–164): cleans old APKs once before any attempt,
then runs the retry loop.  The fresh timestamped filename of each attempt
does not affect the outcomes modelled here. -/
def downloadApk (cleanEnv : CleanEnv) (env : ℕ → DlAttempt) :
    Except String (List (String × Bool)) × DlRun :=
  (cleanOldApkFiles cleanEnv, downloadApkFrom env 1 3)

/-- Download behaviour for the C7 witness: attempt 1 fulfils without a URI,
attempt 2 rejects, attempt 3 fulfils without a URI again. -/
def witnessDlFail : ℕ → DlAttempt :=
  fun n => if n = 2 then .fail "network reset" else .done none

/-- Download behaviour for the C7 witness: attempt 1 fulfils without a URI,
attempt 2 succeeds. -/
def witnessDlOk2 : ℕ → DlAttempt :=
  fun n => if n = 1 then .done none else .done (some "file:///data/OrionTV_v1700000000000.apk")

/-! ### APK install (`installApk`, lines 169–223) -/

/-- Errors thrown by `installApk`. -/
inductive InstallErr where
  | notFound (uri : String)
  | contentUriFail (e : String)
  | launchFail (msg : String)
  | iosUnsupported
deriving DecidableEq

/-- Behaviour of the collaborators of `installApk`: the file store's
existence check (`getInfoAsync(...).exists`) and `file://` → `content://`
translation (`getContentUriAsync`), the platform flag, and the installer
launcher (`IntentLauncher.startActivityAsync`, whose rejection carries a
message). -/
structure InstallEnv where
  fileExists : String → Bool
  contentUri : String → Except String String
  isAndroid : Bool
  launchResult : String → Except String Unit

/-- Observable outcome of an `installApk` run: the result, whether the
installer launcher was invoked, and the toast bodies shown. -/
structure InstallRun where
  result : Except InstallErr Unit
  launcherInvoked : Bool
  toasts : List String

/-- `sub` occurs as a contiguous substring of `s`
(JavaScript `String.prototype.includes`). -/
def containsSub (sub s : String) : Bool :=
  decide (sub.data <:+: s.data)

/-- Launch-failure toast body classification of lines 193–211. -/
def installFailToast (msg : String) : String :=
  if containsSub "Activity not found" msg then
    "系统没有找到可以打开 APK 的应用，请检查系统设置"
  else if containsSub "permission" msg then
    "请在设置里允许“未知来源”安装"
  else "未知错误，请稍后重试"

/-- `installApk` (lines 169–223): verify existence first (throwing
`APK not found at ${fileUri}` without touching the installer, lines 171–174),
translate the URI, then on Android launch the view intent — re-throwing a
classified launch failure — and on any other platform toast and throw
(lines 214–222). -/
def installApk (env : InstallEnv) (fileUri : String) : InstallRun :=
  if !(env.fileExists fileUri) then
    ⟨.error (.notFound fileUri), false, []⟩
  else
    match env.contentUri fileUri with
    | .error e => ⟨.error (.contentUriFail e), false, []⟩
    | .ok cUri =>
        if env.isAndroid then
          match env.launchResult cUri with
          | .ok _ => ⟨.ok (), true, []⟩
          | .error msg => ⟨.error (.launchFail msg), true, [installFailToast msg]⟩
        else ⟨.error .iosUnsupported, false, ["iOS 设备无法直接安装 APK"]⟩

/-- Installer environment for the C8 witness: no file exists anywhere. -/
def witnessInstallEnv : InstallEnv where
  fileExists := fun _ => false
  contentUri := fun u => .ok ("content://" ++ u)
  isAndroid := true
  launchResult := fun _ => .ok ()

/-! ### Claim theorems about version comparison -/

/-- C1: `compareVersions(a, b)` splits both inputs on '.', parses components
as integers, treats a missing component on the shorter side as 0, and returns
1 at the first index where a's component exceeds b's, -1 at the first index
where it is less, and 0 when all compared components are equal; in particular
`compareVersions("1.2.0","1.2")==0`, `compareVersions("1.10.0","1.9.9")==1`,
`compareVersions("1.2","1.2.1")==-1` and `compareVersions("0.0.0","0")==0`,
for every pair of dot-separated non-negative-integer version strings. -/
theorem compareVersions_correct :
    (∀ a b : String, isVersionString a = true → isVersionString b = true →
        compareVersions a b = specCompare (componentVals a) (componentVals b)) ∧
    compareVersions "1.2.0" "1.2" = 0 ∧
    compareVersions "1.10.0" "1.9.9" = 1 ∧
    compareVersions "1.2" "1.2.1" = -1 ∧
    compareVersions "0.0.0" "0" = 0 := by
  refine ⟨?_, by decide, by decide, by decide, by decide⟩
  intro a b ha hb
  have hmap : ∀ s : String, isVersionString s = true →
      (splitDot s.data).map jsNumber = ((splitDot s.data).map natOfDigits).map someInt := by
    intro s hs
    rw [List.map_map]
    refine List.map_congr_left ?_
    intro c hc
    exact jsNumber_of_valid (List.all_eq_true.mp hs c hc)
  unfold compareVersions componentVals
  rw [hmap a ha, hmap b hb, cmpNums_map_someInt]

/-- Witness for C1: concrete valid version strings satisfying the hypotheses. -/
theorem compareVersions_correct_witness :
    isVersionString "2.3" = true ∧ isVersionString "2.10" = true ∧
    compareVersions "2.3" "2.10" = specCompare (componentVals "2.3") (componentVals "2.10") :=
  ⟨by decide, by decide,
    compareVersions_correct.1 "2.3" "2.10" (by decide) (by decide)⟩

/-- C2: for every directory listing, cleanup considers exactly the entries
matching the artifact naming pattern; if 2 or fewer match it deletes nothing,
and otherwise it deletes exactly the matches other than the 2 with the
largest numeric timestamps extracted from the filename — characterised,
independently of the listing order, as: a name is deleted iff it matches and
at least 2 matches carry a strictly larger extracted number. -/
theorem cleanPlan_retains_two_newest :
    ∀ listing : List String,
      (∀ f ∈ cleanPlan listing, isApkName f = true) ∧
      ((listing.filter isApkName).length ≤ 2 → cleanPlan listing = []) ∧
      ((∀ x ∈ listing.filter isApkName, (extractNum x).isSome = true) →
        (listing.filter isApkName).Pairwise (fun x y => extractNum x ≠ extractNum y) →
        ∀ m, m ∈ cleanPlan listing ↔
          m ∈ listing.filter isApkName ∧
            2 ≤ (listing.filter isApkName).countP
                  (fun x => numLt (extractNum m) (extractNum x))) := by
  intro listing
  refine ⟨?_, ?_, ?_⟩
  · intro f hf
    by_cases hlen : (listing.filter isApkName).length ≤ 2
    · rw [show cleanPlan listing = [] from by simp [cleanPlan, hlen]] at hf
      simp at hf
    · rw [show cleanPlan listing = (sortByNumDesc (listing.filter isApkName)).drop 2 from by
        simp [cleanPlan, hlen]] at hf
      have hmem : f ∈ listing.filter isApkName :=
        (sortByNumDesc_perm _).mem_iff.mp ((List.drop_sublist 2 _).mem hf)
      exact (List.mem_filter.mp hmem).2
  · intro hlen
    simp [cleanPlan, hlen]
  · intro hkeys hdist m
    by_cases hlen : (listing.filter isApkName).length ≤ 2
    · rw [show cleanPlan listing = [] from by simp [cleanPlan, hlen]]
      simp only [List.not_mem_nil, false_iff, not_and, not_le]
      intro hm
      by_contra hcnt
      push_neg at hcnt
      have hle := List.countP_le_length
        (fun x => numLt (extractNum m) (extractNum x))
        (l := listing.filter isApkName)
      have heq : (listing.filter isApkName).countP
          (fun x => numLt (extractNum m) (extractNum x)) =
          (listing.filter isApkName).length := by omega
      have hall := List.countP_eq_length.mp heq m hm
      rw [numLt_irrefl] at hall
      exact Bool.false_ne_true hall
    · push_neg at hlen
      rw [show cleanPlan listing = (sortByNumDesc (listing.filter isApkName)).drop 2 from by
        simp [cleanPlan, not_le.mpr hlen]]
      exact drop_two_mem_iff hlen hkeys hdist m

/-- Witness for C2: a six-entry listing with five valid artifact names with
distinct embedded timestamps (plus one non-matching entry); the third-newest
artifact is among the deletions. -/
theorem cleanPlan_retains_two_newest_witness :
    (witnessListing.filter isApkName).all (fun x => (extractNum x).isSome) = true ∧
    "OrionTV_v100.apk" ∈ cleanPlan witnessListing :=
  ⟨by decide,
    ((cleanPlan_retains_two_newest witnessListing).2.2 (by decide) (by decide)
        "OrionTV_v100.apk").mpr ⟨by decide, by decide⟩⟩

/-- C5: `cleanOldApkFiles` never propagates an error to its caller: for every
behaviour of the file store the run returns normally; a failure enumerating
the directory (or a null document directory) is caught and treated as a
no-op; and a failed individual deletion does not abort the remaining
deletions — every file of the deletion plan gets its own deletion attempt,
each with its own outcome. -/
theorem cleanOldApkFiles_never_propagates :
    ∀ env : CleanEnv,
      (∃ r, cleanOldApkFiles env = Except.ok r) ∧
      (env.documentDirectory = none → cleanOldApkFiles env = Except.ok []) ∧
      (∀ e, env.listing = Except.error e → cleanOldApkFiles env = Except.ok []) ∧
      (∀ dir listing, env.documentDirectory = some dir →
        env.listing = Except.ok listing →
          cleanOldApkFiles env =
            Except.ok ((cleanPlan listing).map
              fun f => (f, exceptOk (env.deleteResult (dir ++ f))))) := by
  intro env
  refine ⟨?_, ?_, ?_, ?_⟩
  · unfold cleanOldApkFiles
    cases cleanAttempt env with
    | ok r => exact ⟨r, rfl⟩
    | error e => exact ⟨[], rfl⟩
  · intro hdir
    unfold cleanOldApkFiles cleanAttempt
    rw [hdir]
  · intro e hlist
    unfold cleanOldApkFiles cleanAttempt
    cases hdir : env.documentDirectory with
    | none => rfl
    | some dir => rw [hlist]
  · intro dir listing hdir hlist
    unfold cleanOldApkFiles cleanAttempt
    rw [hdir, hlist]
    show Except.ok (deleteStale env dir (cleanPlan listing)) = _
    rw [deleteStale_eq_map]

/-- Witness for C5: a file store whose `deleteAsync` rejects on the middle
stale file; the run still returns normally and both other stale files get
their deletion attempts. -/
theorem cleanOldApkFiles_never_propagates_witness :
    witnessCleanEnv.documentDirectory = some "file:///data/user/0/app/files/" ∧
    witnessCleanEnv.listing = Except.ok witnessListing ∧
    cleanOldApkFiles witnessCleanEnv =
      Except.ok [("OrionTV_v300.apk", true), ("OrionTV_v200.apk", false),
        ("OrionTV_v100.apk", true)] :=
  ⟨rfl, rfl,
    ((cleanOldApkFiles_never_propagates witnessCleanEnv).2.2.2
        "file:///data/user/0/app/files/" witnessListing rfl rfl).trans
      (congrArg Except.ok (by decide))⟩

/-- C9: for every pair of arbitrary strings — including strings whose
components are not numeric, which parse to NaN and compare neither greater
nor less than anything — `compareVersions` terminates (it is a total Lean
function), returns a value in \x7b-1, 0, 1\x7d, and satisfies
`compareVersions(a, b) = -compareVersions(b, a)`; in particular
`compareVersions(a, a) = 0` for every string `a`. -/
theorem compareVersions_total_function :
    ∀ a b : String,
      (compareVersions a b = -1 ∨ compareVersions a b = 0 ∨ compareVersions a b = 1) ∧
      compareVersions a b = - compareVersions b a ∧
      compareVersions a a = 0 :=
  fun _ _ => ⟨cmpNums_cases _ _, cmpNums_neg _ _, cmpNums_self _⟩

/-- C4: for every version string `v`, `isUpdateAvailable(v)` returns true if
and only if `compareVersions(v, currentVersion) > 0`, where `currentVersion`
is the fixed string read once from build configuration (modelled as an
explicit parameter, since `package.json` is outside `src/`). -/
theorem isUpdateAvailable_iff_compare :
    ∀ currentVersion v : String,
      isUpdateAvailable currentVersion v = true ↔
        compareVersions v currentVersion > 0 := by
  intro cv v
  simp [isUpdateAvailable]

/-- C3: `checkVersion` makes at most 3 attempts; between attempt n and
attempt n+1 it waits exactly `2000*n` milliseconds (the wait list is always
`[2000*1, ..., 2000*(attempts-1)]`), so a run in which all 3 attempts fail
performs exactly 2 backoff waits (2000 ms then 4000 ms) and then re-throws
the last error, while a run succeeding on attempt 2 performs exactly 1 wait
and returns the parsed `VersionInfo`. -/
theorem checkVersion_retry_backoff :
    ∀ (env : ℕ → FetchOutcome) (urlB : JsVal → String),
      (checkVersion env urlB).attemptsMade ≤ 3 ∧
      ((checkVersion env urlB).waits =
        (List.range ((checkVersion env urlB).attemptsMade - 1)).map
          fun i => 2000 * (i + 1)) ∧
      (∀ e1 e2 e3,
        checkAttempt (env 1) urlB = .error e1 →
        checkAttempt (env 2) urlB = .error e2 →
        checkAttempt (env 3) urlB = .error e3 →
          checkVersion env urlB =
            ⟨.error e3, [2000, 4000], 3, ["检查更新失败"]⟩) ∧
      (∀ e1 v,
        checkAttempt (env 1) urlB = .error e1 →
        checkAttempt (env 2) urlB = .ok v →
          checkVersion env urlB = ⟨.ok v, [2000], 2, []⟩) := by
  intro env urlB
  refine ⟨?_, ?_, ?_, ?_⟩
  · cases h1 : checkAttempt (env 1) urlB with
    | ok v => simp [checkVersion, checkVersionFrom, h1]
    | error e1 =>
        cases h2 : checkAttempt (env 2) urlB with
        | ok v => simp [checkVersion, checkVersionFrom, h1, h2]
        | error e2 =>
            cases h3 : checkAttempt (env 3) urlB with
            | ok v => simp [checkVersion, checkVersionFrom, h1, h2, h3]
            | error e3 => simp [checkVersion, checkVersionFrom, h1, h2, h3]
  · cases h1 : checkAttempt (env 1) urlB with
    | ok v => simp [checkVersion, checkVersionFrom, h1]
    | error e1 =>
        cases h2 : checkAttempt (env 2) urlB with
        | ok v =>
            simp [checkVersion, checkVersionFrom, h1, h2, List.range_succ,
              List.range_zero]
        | error e2 =>
            cases h3 : checkAttempt (env 3) urlB with
            | ok v =>
                simp [checkVersion, checkVersionFrom, h1, h2, h3, List.range_succ,
                  List.range_zero]
            | error e3 =>
                simp [checkVersion, checkVersionFrom, h1, h2, h3, List.range_succ,
                  List.range_zero]
  · intro e1 e2 e3 h1 h2 h3
    simp [checkVersion, checkVersionFrom, h1, h2, h3]
  · intro e1 v h1 h2
    simp [checkVersion, checkVersionFrom, h1, h2]

/-- Witness for C3: an all-failing network and a network succeeding on
attempt 2, run through `checkVersion`. -/
theorem checkVersion_retry_backoff_witness :
    checkVersion witnessEnvFail witnessUrlB =
      ⟨.error (.net "timeout"), [2000, 4000], 3, ["检查更新失败"]⟩ ∧
    checkVersion witnessEnvOk2 witnessUrlB =
      ⟨.ok ⟨.str "9.9.9", "9.9.9"⟩, [2000], 2, []⟩ :=
  ⟨(checkVersion_retry_backoff witnessEnvFail witnessUrlB).2.2.1
      (.net "timeout") (.net "timeout") (.net "timeout") rfl rfl rfl,
    (checkVersion_retry_backoff witnessEnvOk2 witnessUrlB).2.2.2
      (.http 500) ⟨.str "9.9.9", "9.9.9"⟩ rfl rfl⟩

/-- C10: `checkVersion` performs no validation of the extracted version
field: every ok-status response whose body parses as JSON makes the attempt
succeed — even when the body has no `version` field (`JsVal.undef`) or a
non-string value (`JsVal.other`) — and the returned `VersionInfo` carries
that value, with `downloadUrl` computed by applying the configured
URL-builder to it. -/
theorem checkVersion_no_version_validation :
    ∀ (urlB : JsVal → String) (status : ℕ) (j : JsonBody),
      checkAttempt (.response true status (.ok j)) urlB =
        .ok ⟨j.version, urlB j.version⟩ ∧
      (∀ env : ℕ → FetchOutcome, env 1 = .response true status (.ok j) →
        (checkVersion env urlB).result = .ok ⟨j.version, urlB j.version⟩) := by
  intro urlB status j
  refine ⟨rfl, ?_⟩
  intro env h1
  have ha : checkAttempt (env 1) urlB = .ok ⟨j.version, urlB j.version⟩ := by
    rw [h1]
    rfl
  simp [checkVersion, checkVersionFrom, ha]

/-- Witness for C10: a manifest whose JSON body has no usable `version`
field at all still makes `checkVersion` succeed. -/
theorem checkVersion_no_version_validation_witness :
    (fun _ : ℕ => FetchOutcome.response true 200 (.ok ⟨.undef⟩)) 1 =
      FetchOutcome.response true 200 (.ok ⟨.undef⟩) ∧
    (checkVersion (fun _ => .response true 200 (.ok ⟨.undef⟩)) witnessUrlB).result =
      .ok ⟨.undef, "undefined"⟩ :=
  ⟨rfl,
    (checkVersion_no_version_validation witnessUrlB 200 ⟨.undef⟩).2
      (fun _ => .response true 200 (.ok ⟨.undef⟩)) rfl⟩

/-- C6: whenever the file store reports download progress with a known
nonzero expected total, the caller-supplied progress callback receives
exactly `floor(written/expected*100)` — e.g. (written=50, expected=200)
yields 25 — and when the expected total is 0 (the falsy "unknown size"
report) or no callback was supplied, the caller's callback is not invoked
at all. -/
theorem downloadProgress_percentage :
    ∀ written expected : ℤ,
      (expected ≠ 0 →
        progressHandler true written expected =
          some ⌊(written : ℚ) / (expected : ℚ) * 100⌋) ∧
      progressHandler true written 0 = none ∧
      progressHandler false written expected = none ∧
      progressHandler true 50 200 = some 25 := by
  intro written expected
  refine ⟨?_, ?_, ?_, ?_⟩
  · intro h
    simp [progressHandler, h]
  · simp [progressHandler]
  · simp [progressHandler]
  · rw [show progressHandler true 50 200 = some ⌊(50 : ℚ) / (200 : ℚ) * 100⌋ from by
      simp [progressHandler]]
    rw [show (50 : ℚ) / 200 * 100 = 25 by norm_num]
    norm_num

/-- Witness for C6: the hypothesis `expected ≠ 0` holds at (50, 200). -/
theorem downloadProgress_percentage_witness :
    (200 : ℤ) ≠ 0 ∧
    progressHandler true 50 200 = some ⌊(50 : ℚ) / (200 : ℚ) * 100⌋ :=
  ⟨by decide, (downloadProgress_percentage 50 200).1 (by decide)⟩

/-- C7: in `downloadApk`, a nominally successful transfer result that
carries no URI is treated as a failure of that attempt — the run does not
return there but proceeds to the next attempt — and after 3 failed attempts
the operation shows the distinct "下载失败" notification and re-throws the
last error to the caller. -/
theorem downloadApk_failure_behaviour :
    ∀ (cleanEnv : CleanEnv) (env : ℕ → DlAttempt),
      (∀ u, env 1 = .done none → env 2 = .done (some u) →
        (downloadApk cleanEnv env).2 = ⟨.ok u, [3000], 2, []⟩) ∧
      (∀ e1 e2 e3,
        dlAttemptResult (env 1) = .error e1 →
        dlAttemptResult (env 2) = .error e2 →
        dlAttemptResult (env 3) = .error e3 →
          (downloadApk cleanEnv env).2 =
            ⟨.error e3, [3000, 6000], 3, ["下载失败"]⟩) := by
  intro cleanEnv env
  constructor
  · intro u h1 h2
    have ha : dlAttemptResult (env 1) = .error .noUri := by rw [h1]; rfl
    have hb : dlAttemptResult (env 2) = .ok u := by rw [h2]; rfl
    simp [downloadApk, downloadApkFrom, ha, hb]
  · intro e1 e2 e3 h1 h2 h3
    simp [downloadApk, downloadApkFrom, h1, h2, h3]

/-- Witness for C7: a no-URI first attempt followed by a successful second
attempt returns the second attempt's URI after one wait; a run of three
failed attempts whose last failure is itself a missing URI re-throws that
error after the "下载失败" toast. -/
theorem downloadApk_failure_behaviour_witness :
    (downloadApk witnessCleanEnv witnessDlOk2).2 =
      ⟨.ok "file:///data/OrionTV_v1700000000000.apk", [3000], 2, []⟩ ∧
    (downloadApk witnessCleanEnv witnessDlFail).2 =
      ⟨.error .noUri, [3000, 6000], 3, ["下载失败"]⟩ :=
  ⟨(downloadApk_failure_behaviour witnessCleanEnv witnessDlOk2).1
      "file:///data/OrionTV_v1700000000000.apk" rfl rfl,
    (downloadApk_failure_behaviour witnessCleanEnv witnessDlFail).2
      .noUri (.transfer "network reset") .noUri rfl rfl rfl⟩

/-- C8: for every file URI at which no file exists, `installApk` fails with
the not-found error without ever invoking the installer launcher (and shows
no toast on this path). -/
theorem installApk_missing_file :
    ∀ (env : InstallEnv) (fileUri : String),
      env.fileExists fileUri = false →
        installApk env fileUri = ⟨.error (.notFound fileUri), false, []⟩ := by
  intro env fileUri h
  simp [installApk, h]

/-- Witness for C8: a file store on which no file exists. -/
theorem installApk_missing_file_witness :
    witnessInstallEnv.fileExists "file:///data/OrionTV_v1.apk" = false ∧
    installApk witnessInstallEnv "file:///data/OrionTV_v1.apk" =
      ⟨.error (.notFound "file:///data/OrionTV_v1.apk"), false, []⟩ :=
  ⟨rfl, installApk_missing_file witnessInstallEnv "file:///data/OrionTV_v1.apk" rfl⟩

end UpdateService
